/-
  Verification of the transform engine of gifsicle (`src/xform.c`).

  The C code is shallowly embedded: each C function becomes a Lean
  definition translated from the source, with machine pointers replaced
  by lists or total functions (a total function `Nat → Gif_Color`
  models the underlying allocation of the `col` array of a colormap, so that
  reads and writes beyond `ncol` — which the C performs in one place —
  stay observable), and the external side effects of
  `pipe_color_transformer` (exit status of the spawned command, result
  of `read_colormap_file`) become explicit parameters.
-/
import Mathlib

namespace Xform

/-! ### Colors and colormaps (`gif.h` data model as used by `xform.c`) -/

/-- One palette entry: RGB triple, plus the `haspixel` flag and the
`pixel` slot used by `Gt_ColorChange` old-colors to pin an explicit
colormap index. -/
structure Gif_Color where
  haspixel : Bool
  red : Nat
  green : Nat
  blue : Nat
  pixel : Nat
  deriving DecidableEq, Repr

/-- The `GIF_COLOREQ` macro: equality of the RGB triples only. -/
def GIF_COLOREQ (a b : Gif_Color) : Bool :=
  a.red == b.red && a.green == b.green && a.blue == b.blue

/-- A colormap: `ncol` live entries inside an allocation modelled as a
total function (indices `≥ ncol` hold whatever the allocation holds —
for a colormap produced by `read_colormap_file`, uninitialized scratch
memory). -/
structure Gif_Colormap where
  ncol : Nat
  col : Nat → Gif_Color

/-! ### Color transform pipeline (`append_color_transform`,
`delete_color_transforms`) -/

/-- Payload of a transform node: a recolor node carries its
`Gt_ColorChange` list, a pipe node its command string; the C `void *`
is modelled as this closed sum. -/
inductive XformData where
  | changes : List (Gif_Color × Gif_Color) → XformData
  | command : String → XformData
  deriving DecidableEq

/-- One node of the `Gt_ColorTransform` list: the function pointer is
modelled by a numeric identifier `func`, the `void *data` by
`XformData`. -/
structure Gt_ColorTransform where
  func : Nat
  data : XformData
  deriving DecidableEq

/-- Identifier standing for the function pointer
`&color_change_transformer`. -/
def CHANGE_FUNC : Nat := 0

/-- Identifier standing for the function pointer
`&pipe_color_transformer`. -/
def PIPE_FUNC : Nat := 1

/-- Function `append_color_transform`: walk to the tail and link the new node;
an empty list returns the new node as head. -/
def append_color_transform (list : List Gt_ColorTransform) (func : Nat)
    (data : XformData) : List Gt_ColorTransform :=
  match list with
  | [] => [⟨func, data⟩]
  | x :: rest => x :: append_color_transform rest func data

/-- Function `delete_color_transforms`: one pass with the `prev`/`trav` pointer
pair, unlinking every node whose `func` matches. -/
def delete_color_transforms (list : List Gt_ColorTransform) (func : Nat) :
    List Gt_ColorTransform :=
  match list with
  | [] => []
  | t :: rest =>
      if t.func = func then delete_color_transforms rest func
      else t :: delete_color_transforms rest func

/-! ### Recolor transform (`color_change_transformer`,
`append_color_change`) -/

/-- The match test inside the inner loop of `color_change_transformer`:
`have` is set from RGB equality when the old color has no explicit
pixel slot, and from slot equality otherwise. -/
def changeMatches (oldc : Gif_Color) (i : Nat) (cur : Gif_Color) : Bool :=
  if !oldc.haspixel then GIF_COLOREQ cur oldc else oldc.pixel == i

/-- The inner `for (change = first_change; change; change = change->next)`
loop for one entry `i` holding value `cur`: on the first match the entry
becomes the new color of that change and the loop breaks. -/
def applyChanges (changes : List (Gif_Color × Gif_Color)) (i : Nat)
    (cur : Gif_Color) : Gif_Color :=
  match changes with
  | [] => cur
  | ch :: rest =>
      if changeMatches ch.1 i cur then ch.2 else applyChanges rest i cur

/-- Function `color_change_transformer`: every entry `i < ncol` is rewritten by
the first matching change; the allocation beyond `ncol` is untouched. -/
def color_change_transformer (gfcm : Gif_Colormap)
    (changes : List (Gif_Color × Gif_Color)) : Gif_Colormap :=
  { gfcm with
    col := fun i =>
      if i < gfcm.ncol then applyChanges changes i (gfcm.col i)
      else gfcm.col i }

/-- Function `append_color_change`: walk to the tail; if the tail node is a
recolor node, append the new pair to its change list, otherwise append
a fresh recolor node to the transform list. -/
def append_color_change (list : List Gt_ColorTransform)
    (old_color new_color : Gif_Color) : List Gt_ColorTransform :=
  match list with
  | [] => [⟨CHANGE_FUNC, .changes [(old_color, new_color)]⟩]
  | [x] =>
      if x.func = CHANGE_FUNC then
        match x.data with
        | .changes l => [⟨CHANGE_FUNC, .changes (l ++ [(old_color, new_color)])⟩]
        | _d => [x, ⟨CHANGE_FUNC, XformData.changes [(old_color, new_color)]⟩]
      else [x, ⟨CHANGE_FUNC, .changes [(old_color, new_color)]⟩]
  | x :: y :: rest => x :: append_color_change (y :: rest) old_color new_color

/-! ### External-process transform (`pipe_color_transformer`)

The function is modelled from the point where the spawned command has
been launched successfully (the earlier `mkstemp`/`popen` failures call
`fatal_error`, which aborts the whole run and never returns).  Its
external inputs become parameters: the `pclose` status, whether
`fopen`/`feof` found output, and the colormap `read_colormap_file`
parsed (if any).  The outcome records the final colormap, how many
recoverable errors and warnings this function emitted, and whether
`remove(tmp_file)` ran. -/

/-- Outcome of one `pipe_color_transformer` invocation. -/
structure PipeOutcome where
  cm : Gif_Colormap
  errors : Nat
  warnings : Nat
  tmpRemoved : Bool

/-- Lines 185–194 of `xform.c`: merge the parsed colormap into the
original.  `nc` starts as the parsed count; when the parsed count is
smaller than the original the code sets `nc` to the *original* count
(and warns), when larger it only warns, then copies `col[i] =
new_cm->col[i]` for every `i < nc`. -/
def mergeColormap (gfcm new_cm : Gif_Colormap) : Gif_Colormap × Nat :=
  let nc := new_cm.ncol
  let ncWarn : Nat × Nat :=
    if nc < gfcm.ncol then (gfcm.ncol, 1)
    else if nc > gfcm.ncol then (nc, 1)
    else (nc, 0)
  ({ gfcm with
     col := fun i => if i < ncWarn.1 then new_cm.col i else gfcm.col i },
   ncWarn.2)

/-- Function `pipe_color_transformer` after the command was launched: the
`pclose` status checks, the no-output check, the parse, the merge, and
the `done:` label that removes the temporary file on every path. -/
def pipe_color_transformer (gfcm : Gif_Colormap) (status : Int)
    (openOk : Bool) (atEof : Bool) (parsed : Option Gif_Colormap) :
    PipeOutcome :=
  if status < 0 then ⟨gfcm, 1, 0, true⟩
  else if status > 0 then ⟨gfcm, 1, 0, true⟩
  else if !openOk || atEof then ⟨gfcm, 1, 0, true⟩
  else
    match parsed with
    | none => ⟨gfcm, 0, 0, true⟩
    | some new_cm =>
        let m := mergeColormap gfcm new_cm
        ⟨m.1, 0, m.2, true⟩

/-! ### Frames (`Gif_Image` as used by `xform.c`) -/

/-- One frame: geometry, transparent index (`-1` = none), and the
uncompressed pixel rows (`none` models `gfi->img == 0`, i.e. the frame
held only in compressed form).  Each row is a list of palette-index
bytes; an aliased row (after a crop) may be longer than `width`. -/
structure Gif_Image where
  width : Nat
  height : Nat
  left : Int
  top : Int
  transparent : Int
  img : Option (List (List Nat))

/-! ### Crop engine (`combine_crop`, `crop_image`) -/

/-- The crop request: the rectangle and the original anchor
(`left_offset`/`top_offset`) used to re-derive the frame offset. -/
structure Gt_Crop where
  x : Int
  y : Int
  w : Int
  h : Int
  left_offset : Int
  top_offset : Int

/-- Function `combine_crop`: translate the request into frame-local coordinates
and clamp it to the frame; an empty intersection leaves `w ≤ 0` or
`h ≤ 0`. -/
def combine_crop (srccrop : Gt_Crop) (gfi : Gif_Image) : Gt_Crop :=
  let x := srccrop.x - gfi.left
  let y := srccrop.y - gfi.top
  let w := srccrop.w
  let h := srccrop.h
  let xw := if x < 0 then ((0 : Int), w + x) else (x, w)
  let yh := if y < 0 then ((0 : Int), h + y) else (y, h)
  let w := if xw.1 + xw.2 > (gfi.width : Int) then (gfi.width : Int) - xw.1 else xw.2
  let h := if yh.1 + yh.2 > (gfi.height : Int) then (gfi.height : Int) - yh.1 else yh.2
  { srccrop with x := xw.1, y := yh.1, w := w, h := h }

/-- Function `crop_image`.  The non-empty branch builds a new row table whose
row `j` aliases row `c.y + j` of the existing storage offset by `c.x`
columns (modelled by `List.drop`); the `preserve_total_crop` branch
collapses to a 1×1 frame aliasing row 0 and sets the transparent index
to that first pixel; otherwise the frame becomes empty.  The second
component is the C return value `gfi->img != 0`. -/
def crop_image (gfi : Gif_Image) (crop : Gt_Crop)
    (preserve_total_crop : Bool) : Gif_Image × Bool :=
  let c := combine_crop crop gfi
  let rows := gfi.img.getD []
  if 0 < c.w ∧ 0 < c.h then
    ({ gfi with
       img := some ((List.range c.h.toNat).map
         (fun j => (rows.getD (c.y.toNat + j) []).drop c.x.toNat)),
       left := gfi.left + (c.x - crop.left_offset),
       top := gfi.top + (c.y - crop.top_offset),
       width := c.w.toNat, height := c.h.toNat }, true)
  else if preserve_total_crop then
    let row0 := rows.getD 0 []
    ({ gfi with
       width := 1, height := 1, img := some [row0],
       transparent := (row0.getD 0 0 : Int) }, true)
  else
    ({ gfi with width := 0, height := 0, img := none }, false)

/-! ### Flip engine (`flip_image`) -/

/-- Row reversal of the horizontal flip: the C copies the row into a
scratch buffer of `width` bytes and writes `buffer[x]` through a
pointer walking down from `img[y] + width - 1`, so byte `p` of the new
row is byte `width - 1 - p` of the old row; bytes at or beyond `width`
(possible on aliased rows) are untouched. -/
def flipRow (w : Nat) (row : List Nat) : List Nat :=
  (List.range w).map (fun x => row.getD (w - 1 - x) 0) ++ row.drop w

/-- Function `flip_image`: the horizontal branch reverses each of the `height`
rows in place and re-derives `left`; the vertical branch reverses the
order of the row pointers and re-derives `top`. -/
def flip_image (gfi : Gif_Image) (screen_width screen_height : Int)
    (is_vert : Bool) : Gif_Image :=
  let width := gfi.width
  let height := gfi.height
  let rows := gfi.img.getD []
  if !is_vert then
    { gfi with
      img := some ((List.range height).map (fun y => flipRow width (rows.getD y []))),
      left := screen_width - (gfi.left + (width : Int)) }
  else
    { gfi with
      img := some ((List.range height).map (fun y => rows.getD (height - 1 - y) [])),
      top := screen_height - (gfi.top + (height : Int)) }

/-! ### Rotate engine (`rotate_image`) -/

/-- The flat pixel buffer and geometry produced by `rotate_image`
(`new_data` and the updated fields, before `Gif_SetUncompressedImage`
re-chunks it into rows). -/
structure RawImage where
  data : List Nat
  width : Nat
  height : Nat
  left : Int
  top : Int

/-- Inner loop of the 90° case: `for (y = height - 1; y >= 0; y--)
*trav++ = img[y][x]` — source column `x` read bottom-to-top. -/
def colUp (rows : List (List Nat)) (x : Nat) : Nat → List Nat
  | 0 => []
  | y + 1 => (rows.getD y []).getD x 0 :: colUp rows x y

/-- Outer loop of the 270° case: `for (x = width - 1; x >= 0; x--)`,
each column read top-to-bottom by the inner `for (y = 0; y < height;
y++)`. -/
def colsDesc (rows : List (List Nat)) (height : Nat) : Nat → List Nat
  | 0 => []
  | x + 1 =>
      ((List.range height).map (fun y => (rows.getD y []).getD x 0))
        ++ colsDesc rows height x

/-- Function `rotate_image` (precondition `rotation = 1 ∨ rotation = 3`,
enforced by an `assert` in the C): fills `new_data` by the
rotation-specific traversal, re-derives the offsets, and swaps width
and height. -/
def rotate_image (gfi : Gif_Image) (screen_width screen_height : Int)
    (rotation : Nat) : RawImage :=
  let width := gfi.width
  let height := gfi.height
  let rows := gfi.img.getD []
  if rotation = 1 then
    { data := (List.range width).flatMap (fun x => colUp rows x height),
      left := screen_height - (gfi.top + (height : Int)),
      top := gfi.left,
      width := height, height := width }
  else
    { data := colsDesc rows height width,
      top := screen_width - (gfi.left + (width : Int)),
      left := gfi.top,
      width := height, height := width }

/-! ### Scale engine (`scale_image`)

10-bit fixed point: `SCALE(d) = d << 10`, `UNSCALE_NOROUND(d) = d >> 10`
(arithmetic shift, i.e. floor division), `UNSCALE(d) =
UNSCALE_NOROUND(d + 512)`.  The C doubles become rationals (every
factor the claims exercise is exactly representable in binary floating
point, so the rational model computes the same values), and the `(int)`
cast becomes truncation toward zero. -/

/-- The `UNSCALE_NOROUND` macro: arithmetic right shift by 10. -/
def unscaleNoRound (d : Int) : Int := d.fdiv 1024

/-- The `UNSCALE` macro: shift with round-to-nearest (`+ (1 << 9)` first). -/
def unscale (d : Int) : Int := unscaleNoRound (d + 512)

/-- The C `(int)` cast of a double: truncation toward zero (floor for
nonnegative values, ceiling for negative ones). -/
def ratTrunc (q : ℚ) : Int := if q < 0 then ⌈q⌉ else ⌊q⌋

/-- State of the inner (column) loop of the scan conversion: current
destination column `new_x`, accumulated fixed-point position `sx`,
current flat output index `pos` (the `out_data` pointer as an offset
into `new_data`), and the output buffer. -/
structure RowSt where
  new_x : Int
  sx : Int
  pos : Int
  buf : Int → Nat

/-- The `for (yinc = 0; yinc < y_delta; yinc++)` loop: replicate pixel
`v` into `ydelta` destination rows at column offset `pos`, stepping by
the destination row stride `nw`. -/
def writeBlock (buf : Int → Nat) (pos nw : Int) (v : Nat) : Nat → (Int → Nat)
  | 0 => buf
  | k + 1 => Function.update (writeBlock buf pos nw v k) (pos + (k : Int) * nw) v

/-- The `for (; x_delta > 0; new_x++, x_delta--, out_data++)` loop:
write a `ydelta`-row block at the current position, then advance. -/
def writeCols (nw : Int) (ydelta : Nat) (v : Nat) : Nat → RowSt → RowSt
  | 0, st => st
  | d + 1, st =>
      writeCols nw ydelta v d
        { st with
          new_x := st.new_x + 1, pos := st.pos + 1,
          buf := writeBlock st.buf st.pos nw v ydelta }

/-- One iteration `i` of the `for (i = 0; i < gfi->width; i++)` loop:
advance the fixed-point x position (snapped to `SCALE(new_right)` on
the last source column), compute `x_delta`, and replicate. -/
def rowStep (xstep new_right nw : Int) (width : Nat) (ydelta : Nat)
    (in_line : List Nat) (st : RowSt) (i : Nat) : RowSt :=
  let sx := st.sx + xstep
  let sx := if i = width - 1 then 1024 * new_right else sx
  let xdelta := unscale (sx - 1024 * st.new_x)
  let st1 := writeCols nw ydelta (in_line.getD i 0) xdelta.toNat st
  { st1 with sx := sx }

/-- State of the outer (row) loop: current destination row `new_y`,
accumulated fixed-point position `sy`, output buffer. -/
structure ColSt where
  new_y : Int
  sy : Int
  buf : Int → Nat

/-- One iteration `j` of the `for (j = 0; j < gfi->height; j++)` loop:
advance the fixed-point y position (snapped to `SCALE(new_bottom)` on
the last source row), `continue` if no destination row boundary was
crossed, otherwise emit the row with the computed `y_delta`. -/
def imageStep (xstep ystep new_left new_right new_bottom new_top nw : Int)
    (left : Int) (width height : Nat) (rows : List (List Nat))
    (st : ColSt) (j : Nat) : ColSt :=
  let sy := st.sy + ystep
  let sy := if j = height - 1 then 1024 * new_bottom else sy
  if sy < 1024 * (st.new_y + 1) then { st with sy := sy }
  else
    let ydelta := unscale (sy - 1024 * st.new_y)
    let st0 : RowSt :=
      { new_x := new_left, sx := xstep * left,
        pos := (st.new_y - new_top) * nw, buf := st.buf }
    let st1 := (List.range width).foldl
      (rowStep xstep new_right nw width ydelta.toNat (rows.getD j [])) st0
    { new_y := st.new_y + ydelta, sy := sy, buf := st1.buf }

/-- Function `scale_image`.  Derives the new geometry from the four scaled
screen-relative edges, clamps zero extents to 1, takes the
`fatal_error` path (`none`) when a dimension exceeds
`UNSCALE_NOROUND(INT_MAX)`, runs the scan conversion, and installs the
new buffer re-chunked into rows (as `Gif_SetUncompressedImage` does).
`init` models the contents of the freshly allocated, uninitialized
`new_data` array.  Frames are modelled in raw form; the
compressed-form round trip (`Gif_UncompressImage` /
`Gif_FullCompressImage`) is codec work outside the source of this file and
does not alter the scan conversion. -/
def scale_image (gfi : Gif_Image) (xfactor yfactor : ℚ) (init : Int → Nat) :
    Option Gif_Image :=
  let xstep := ratTrunc (1024 * xfactor + 1/2)
  let ystep := ratTrunc (1024 * yfactor + 1/2)
  let new_left := unscale (xstep * gfi.left)
  let new_top := unscale (ystep * gfi.top)
  let new_right0 := unscale (xstep * (gfi.left + (gfi.width : Int)))
  let new_bottom0 := unscale (ystep * (gfi.top + (gfi.height : Int)))
  let nwr : Int × Int :=
    if new_right0 - new_left ≤ 0 then (1, new_left + 1)
    else (new_right0 - new_left, new_right0)
  let nhb : Int × Int :=
    if new_bottom0 - new_top ≤ 0 then (1, new_top + 1)
    else (new_bottom0 - new_top, new_bottom0)
  let new_width := nwr.1
  let new_right := nwr.2
  let new_height := nhb.1
  let new_bottom := nhb.2
  if new_width > unscaleNoRound 2147483647 ∨
     new_height > unscaleNoRound 2147483647 then none
  else
    let rows := gfi.img.getD []
    let fin := (List.range gfi.height).foldl
      (imageStep xstep ystep new_left new_right new_bottom new_top
        new_width gfi.left gfi.width gfi.height rows)
      { new_y := new_top, sy := ystep * gfi.top, buf := init }
    some { gfi with
           width := new_width.toNat, height := new_height.toNat,
           left := unscale (xstep * gfi.left),
           top := unscale (ystep * gfi.top),
           img := some ((List.range new_height.toNat).map (fun (r : Nat) =>
             (List.range new_width.toNat).map (fun (c : Nat) =>
               fin.buf ((r : Int) * new_width + (c : Int))))) }

/-! ### Stream resize orchestrator (`resize_stream`) -/

/-- A stream: logical screen and its frames (the global colormap plays
no role in resizing). -/
structure Gif_Stream where
  screen_width : Int
  screen_height : Int
  images : List Gif_Image

/-- Modelled from the spec: `Gif_CalculateScreenSize` lives in the
container collaborator ("recompute screen size from frame placements"),
outside the source of this file; per the invariant "screen dimensions bound
the union of all frame placements", each screen dimension becomes at
least the corresponding extent of every frame. -/
def Gif_CalculateScreenSize (gfs : Gif_Stream) : Gif_Stream :=
  { gfs with
    screen_width :=
      gfs.images.foldl (fun a g => max a (g.left + (g.width : Int))) gfs.screen_width,
    screen_height :=
      gfs.images.foldl (fun a g => max a (g.top + (g.height : Int))) gfs.screen_height }

/-- Result of `resize_stream`: the stream plus, as ghost output, the
one factor pair actually applied to every frame. -/
structure ResizeResult where
  xfactor : ℚ
  yfactor : ℚ
  stream : Gif_Stream

/-- Function `resize_stream`: compute per-axis factors, derive an unset axis
from the other, apply the `fit` rules, then scale every frame with the
one resulting factor pair and install the new screen size.  `none` is
the propagated `fatal_error` of `scale_image`. -/
def resize_stream (gfs0 : Gif_Stream) (nw0 nh0 : Int) (fit : Bool)
    (init : Int → Nat) : Option ResizeResult :=
  let gfs := Gif_CalculateScreenSize gfs0
  let sw : ℚ := (gfs.screen_width : ℚ)
  let sh : ℚ := (gfs.screen_height : ℚ)
  let xfactor : ℚ := (nw0 : ℚ) / sw
  let yfactor : ℚ := (nh0 : ℚ) / sh
  if nw0 ≤ 0 ∧ nh0 ≤ 0 then some ⟨xfactor, yfactor, gfs⟩
  else
    let a : ℚ × ℚ × Int × Int :=
      if nw0 ≤ 0 then (yfactor, yfactor, ratTrunc (sw * yfactor + 1/2), nh0)
      else if nh0 ≤ 0 then (xfactor, xfactor, nw0, ratTrunc (sh * xfactor + 1/2))
      else (xfactor, yfactor, nw0, nh0)
    let xf := a.1
    let yf := a.2.1
    let nw := a.2.2.1
    let nh := a.2.2.2
    if fit ∧ nw ≥ gfs.screen_width ∧ nh ≥ gfs.screen_height then
      some ⟨xf, yf, gfs⟩
    else
      let b : ℚ × ℚ × Int × Int :=
        if fit ∧ xf < yf then (xf, xf, nw, ratTrunc (sh * xf + 1/2))
        else if fit ∧ yf < xf then (yf, yf, ratTrunc (sw * yf + 1/2), nh)
        else (xf, yf, nw, nh)
      match gfs.images.mapM (fun g => scale_image g b.1 b.2.1 init) with
      | none => none
      | some imgs =>
          some ⟨b.1, b.2.1,
            { gfs with
              images := imgs,
              screen_width := b.2.2.1, screen_height := b.2.2.2 }⟩

/-! ### Concrete inputs used by counterexamples and witnesses -/

/-- Red, no explicit pixel slot. -/
def redColor : Gif_Color := ⟨false, 255, 0, 0, 0⟩

/-- Blue, no explicit pixel slot. -/
def blueColor : Gif_Color := ⟨false, 0, 0, 255, 0⟩

/-- Green, no explicit pixel slot. -/
def greenColor : Gif_Color := ⟨false, 0, 255, 0, 0⟩

/-- White, no explicit pixel slot. -/
def whiteColor : Gif_Color := ⟨false, 255, 255, 255, 0⟩

/-- Black, no explicit pixel slot. -/
def blackColor : Gif_Color := ⟨false, 0, 0, 0, 0⟩

/-- Stands for whatever the uninitialized tail of a parsed scratch
colormap allocation happens to hold. -/
def junkColor : Gif_Color := ⟨false, 17, 23, 42, 0⟩

/-- A two-entry colormap (white, black). -/
def cmWhiteBlack : Gif_Colormap :=
  ⟨2, fun i => if i = 0 then whiteColor else blackColor⟩

/-- A colormap whose parse produced a single entry; index 1 of the
allocation holds uninitialized scratch memory. -/
def cmParsedOne : Gif_Colormap :=
  ⟨1, fun i => if i = 0 then redColor else junkColor⟩

/-- A one-entry all-red colormap. -/
def cmRed : Gif_Colormap := ⟨1, fun _ => redColor⟩

/-- A 2×2 frame at the screen origin with rows `[[1,2],[3,4]]`. -/
def frame2x2 : Gif_Image :=
  ⟨2, 2, 0, 0, -1, some [[1, 2], [3, 4]]⟩

/-- A crop request lying entirely to the right of `frame2x2`. -/
def cropFarRight : Gt_Crop := ⟨10, 10, 1, 1, 10, 10⟩

/-- A hundred rows of a hundred zero pixels. -/
def rows100 : List (List Nat) := List.replicate 100 (List.replicate 100 0)

/-- A 100×100 frame at offset (0,0). -/
def frame100 : Gif_Image := ⟨100, 100, 0, 0, -1, some rows100⟩

/-- A stream with a 100×100 screen holding `frame100`. -/
def stream100 : Gif_Stream := ⟨100, 100, [frame100]⟩

/-! ## Theorems -/

/-- Helper: a fold over `List.range (n + 1)` peels its last step. -/
theorem foldl_range_succ {α : Type} (f : α → Nat → α) (a : α) (n : Nat) :
    (List.range (n + 1)).foldl f a = f ((List.range n).foldl f a) n := by
  rw [List.range_succ, List.foldl_append, List.foldl_cons, List.foldl_nil]

/-- C9: `append_color_transform` adds the node at the tail, keeping
existing nodes in order and returning the (possibly new) head;
`delete_color_transforms` removes exactly the nodes whose operation
identifier matches — regardless of payload — keeping survivors in
order, possibly returning an empty list. -/
theorem append_delete_color_transform_spec :
    (∀ (list : List Gt_ColorTransform) (func : Nat) (data : XformData),
      append_color_transform list func data = list ++ [⟨func, data⟩])
    ∧ (∀ (list : List Gt_ColorTransform) (func : Nat),
      delete_color_transforms list func =
        list.filter (fun t => t.func ≠ func)) := by
  constructor
  · intro list func data
    induction list with
    | nil => rfl
    | cons x rest ih => simp [append_color_transform, ih]
  · intro list func
    induction list with
    | nil => rfl
    | cons t rest ih =>
      by_cases h : t.func = func <;>
        simp [delete_color_transforms, h, ih, List.filter_cons]

/-- Helper: the inner change-scan loop returns the new color of the
first matching change, or leaves the entry alone. -/
theorem applyChanges_eq_find (changes : List (Gif_Color × Gif_Color))
    (i : Nat) (cur : Gif_Color) :
    applyChanges changes i cur =
      (match changes.find? (fun ch => changeMatches ch.1 i cur) with
       | some ch => ch.2
       | none => cur) := by
  induction changes with
  | nil => rfl
  | cons ch rest ih =>
    by_cases h : changeMatches ch.1 i cur <;>
      simp [applyChanges, List.find?_cons, h, ih]

/-- C3: each colormap entry is rewritten by the first registered
matching change and later matches are ignored; two `registerChange`
calls for (red→blue) then (red→green) merge into one recolor node with
the changes in registration order, and every red entry becomes blue. -/
theorem color_change_first_registered_wins :
    (∀ (gfcm : Gif_Colormap) (changes : List (Gif_Color × Gif_Color)) (i : Nat),
      i < gfcm.ncol →
      (color_change_transformer gfcm changes).col i =
        (match changes.find? (fun ch => changeMatches ch.1 i (gfcm.col i)) with
         | some ch => ch.2
         | none => gfcm.col i))
    ∧ append_color_change (append_color_change [] redColor blueColor)
        redColor greenColor =
      [⟨CHANGE_FUNC, .changes [(redColor, blueColor), (redColor, greenColor)]⟩]
    ∧ (∀ (gfcm : Gif_Colormap) (i : Nat), i < gfcm.ncol →
        GIF_COLOREQ (gfcm.col i) redColor = true →
        (color_change_transformer gfcm
          [(redColor, blueColor), (redColor, greenColor)]).col i = blueColor) := by
  refine ⟨?_, by decide, ?_⟩
  · intro gfcm changes i hi
    simp [color_change_transformer, hi, applyChanges_eq_find]
  · intro gfcm i hi heq
    simp only [redColor] at heq
    simp [color_change_transformer, hi, applyChanges, changeMatches,
      redColor, heq]

/-- Witness for `color_change_first_registered_wins` at a concrete
input: the all-red one-entry colormap really ends up blue, and the
general clause evaluates at it. -/
theorem color_change_first_registered_wins_witness :
    (color_change_transformer cmRed
      [(redColor, blueColor), (redColor, greenColor)]).col 0 = blueColor ∧
    (color_change_transformer cmRed [(redColor, greenColor)]).col 0 =
      (match [(redColor, greenColor)].find?
          (fun ch => changeMatches ch.1 0 (cmRed.col 0)) with
       | some ch => ch.2
       | none => cmRed.col 0) :=
  ⟨color_change_first_registered_wins.2.2 cmRed 0 (by decide) (by decide),
   color_change_first_registered_wins.1 cmRed [(redColor, greenColor)] 0 (by decide)⟩

/-- C1 (refuted — code bug): on the "too few parsed colors" branch the
code sets `nc` to the *original* count and then copies `nc` entries
out of the parsed scratch colormap, so the original entry at index 1
(beyond the parsed count) is overwritten with uninitialized
scratch contents instead of being left unmodified (a warning is
still emitted). -/
theorem pipe_merge_too_few_clobbers_tail :
    (pipe_color_transformer cmWhiteBlack 0 true false (some cmParsedOne)).cm.col 1
      = junkColor ∧
    junkColor ≠ cmWhiteBlack.col 1 ∧
    (pipe_color_transformer cmWhiteBlack 0 true false (some cmParsedOne)).warnings
      = 1 := by
  refine ⟨by decide, by decide, by decide⟩

/-- C2: whenever the spawned command failed (`pclose` status negative
or positive) or its output file could not be opened or was at end of
file, `pipe_color_transformer` leaves the colormap untouched, emits
exactly one recoverable error, and removes the temporary file; the
temporary file is removed on every path (success, parse failure,
process failure), and a parse failure also leaves the colormap
untouched. -/
theorem pipe_failure_keeps_colormap_and_removes_tmp :
    (∀ (gfcm : Gif_Colormap) (status : Int) (openOk atEof : Bool)
       (parsed : Option Gif_Colormap),
      status ≠ 0 ∨ openOk = false ∨ atEof = true →
        (pipe_color_transformer gfcm status openOk atEof parsed).cm = gfcm ∧
        (pipe_color_transformer gfcm status openOk atEof parsed).errors = 1 ∧
        (pipe_color_transformer gfcm status openOk atEof parsed).tmpRemoved = true)
    ∧ (∀ (gfcm : Gif_Colormap) (status : Int) (openOk atEof : Bool)
         (parsed : Option Gif_Colormap),
        (pipe_color_transformer gfcm status openOk atEof parsed).tmpRemoved = true)
    ∧ (∀ (gfcm : Gif_Colormap) (status : Int) (openOk atEof : Bool),
        (pipe_color_transformer gfcm status openOk atEof none).cm = gfcm) := by
  refine ⟨?_, ?_, ?_⟩
  · intro gfcm status openOk atEof parsed h
    unfold pipe_color_transformer
    rcases h with h | h | h
    · rcases lt_or_gt_of_ne h with hlt | hgt
      · simp [hlt]
      · simp [hgt, not_lt_of_gt hgt]
    · subst h
      split_ifs <;> simp_all
    · subst h
      split_ifs <;> simp_all
  · intro gfcm status openOk atEof parsed
    unfold pipe_color_transformer
    split_ifs <;> first
      | rfl
      | (cases parsed <;> simp [mergeColormap])
  · intro gfcm status openOk atEof
    unfold pipe_color_transformer
    split_ifs <;> rfl

/-- Witness for `pipe_failure_keeps_colormap_and_removes_tmp`:
exit status 1 with no parsed output on the two-entry colormap. -/
theorem pipe_failure_keeps_colormap_and_removes_tmp_witness :
    (pipe_color_transformer cmWhiteBlack 1 true false none).cm = cmWhiteBlack ∧
    (pipe_color_transformer cmWhiteBlack 1 true false none).errors = 1 ∧
    (pipe_color_transformer cmWhiteBlack 1 true false none).tmpRemoved = true :=
  pipe_failure_keeps_colormap_and_removes_tmp.1 cmWhiteBlack 1 true false none
    (Or.inl (by decide))

/-- C4: cropping with an empty intersection empties the frame (zero
size, no buffer, returns false) unless `preserve_total_crop` is set,
in which case the frame collapses to 1×1, its single pixel aliases the
original top-left pixel, the transparent index becomes the value of
that pixel, and it returns true; in every case the return value says
whether the frame retains any pixels. -/
theorem crop_empty_intersection_spec :
    (∀ (gfi : Gif_Image) (crop : Gt_Crop) (rows : List (List Nat)),
      gfi.img = some rows →
      ¬(0 < (combine_crop crop gfi).w ∧ 0 < (combine_crop crop gfi).h) →
        ((crop_image gfi crop false).1.width = 0 ∧
         (crop_image gfi crop false).1.height = 0 ∧
         (crop_image gfi crop false).1.img = none ∧
         (crop_image gfi crop false).2 = false) ∧
        ((crop_image gfi crop true).1.width = 1 ∧
         (crop_image gfi crop true).1.height = 1 ∧
         (crop_image gfi crop true).1.img = some [rows.getD 0 []] ∧
         ((((crop_image gfi crop true).1.img.getD []).getD 0 []).getD 0 0 : Nat)
           = (rows.getD 0 []).getD 0 0 ∧
         (crop_image gfi crop true).1.transparent
           = ((rows.getD 0 []).getD 0 0 : Int) ∧
         (crop_image gfi crop true).2 = true))
    ∧ (∀ (gfi : Gif_Image) (crop : Gt_Crop) (preserve : Bool),
        (crop_image gfi crop preserve).2 =
          decide (0 < (crop_image gfi crop preserve).1.width ∧
                  0 < (crop_image gfi crop preserve).1.height)) := by
  constructor
  · intro gfi crop rows himg hempty
    simp [crop_image, hempty, himg]
  · intro gfi crop preserve
    by_cases hc : 0 < (combine_crop crop gfi).w ∧ 0 < (combine_crop crop gfi).h
    · simp [crop_image, hc]
    · cases preserve <;> simp [crop_image, hc]

/-- Witness for `crop_empty_intersection_spec`: the far-right crop of
the 2×2 frame misses entirely; without preservation the frame empties,
with preservation the transparent index becomes the original top-left
pixel 1. -/
theorem crop_empty_intersection_spec_witness :
    (crop_image frame2x2 cropFarRight false).2 = false ∧
    (crop_image frame2x2 cropFarRight true).1.transparent = 1 := by
  have h := crop_empty_intersection_spec.1 frame2x2 cropFarRight
    [[1, 2], [3, 4]] rfl (by decide)
  exact ⟨h.1.2.2.2, h.2.2.2.2.2.1⟩

/-- C10: on the empty-intersection branch with preservation, the
screen offsets of the frame are left untouched (the offset adjustment
happens only in the non-empty branch). -/
theorem crop_preserve_empty_keeps_offsets :
    ∀ (gfi : Gif_Image) (crop : Gt_Crop),
      ¬(0 < (combine_crop crop gfi).w ∧ 0 < (combine_crop crop gfi).h) →
        (crop_image gfi crop true).1.left = gfi.left ∧
        (crop_image gfi crop true).1.top = gfi.top := by
  intro gfi crop hempty
  simp [crop_image, hempty]

/-- Witness for `crop_preserve_empty_keeps_offsets` on the concrete
2×2 frame and far-right crop. -/
theorem crop_preserve_empty_keeps_offsets_witness :
    (crop_image frame2x2 cropFarRight true).1.left = frame2x2.left ∧
    (crop_image frame2x2 cropFarRight true).1.top = frame2x2.top :=
  crop_preserve_empty_keeps_offsets frame2x2 cropFarRight (by decide)

/-- Helper: on a row of exactly `w` bytes the horizontal-flip row
rewrite is list reversal. -/
theorem flipRow_eq_reverse (w : Nat) (row : List Nat) (h : row.length = w) :
    flipRow w row = row.reverse := by
  subst h
  rw [flipRow, List.drop_length, List.append_nil]
  apply List.ext_getElem
  · simp
  · intro i h1 h2
    simp only [List.getElem_map, List.getElem_range, List.getElem_reverse]
    rw [List.getD_eq_getElem]

/-- Helper: mapping an index-based read over `List.range l.length`
is just `List.map`. -/
theorem range_map_getD {α β : Type} (l : List α) (d : α) (f : α → β) :
    (List.range l.length).map (fun y => f (l.getD y d)) = l.map f := by
  apply List.ext_getElem
  · simp
  · intro i h1 h2
    simp only [List.length_map, List.length_range] at h1
    simp [List.getElem?_eq_getElem h1]

/-- Helper: `flip_image` with `is_vert = false`, written out on an
explicit frame. -/
theorem flip_image_false_mk (w h : Nat) (l t tr : Int)
    (io : Option (List (List Nat))) (sw sh : Int) :
    flip_image ⟨w, h, l, t, tr, io⟩ sw sh false =
      ⟨w, h, sw - (l + (w : Int)), t, tr,
        some ((List.range h).map
          (fun y => flipRow w ((io.getD []).getD y [])))⟩ := rfl

/-- C6: one horizontal flip reverses each row and sets `left` to
`screenWidth - (left + width)`; flipping twice with the same screen
width restores the frame exactly. -/
theorem flip_horizontal_involution :
    ∀ (gfi : Gif_Image) (sw sh : Int) (rows : List (List Nat)),
      gfi.img = some rows → rows.length = gfi.height →
      (∀ r ∈ rows, r.length = gfi.width) →
        flip_image (flip_image gfi sw sh false) sw sh false = gfi ∧
        (flip_image gfi sw sh false).img = some (rows.map List.reverse) ∧
        (flip_image gfi sw sh false).left
          = sw - (gfi.left + (gfi.width : Int)) := by
  intro gfi sw sh rows himg hlen hrows
  obtain ⟨w, h, l, t, tr, io⟩ := gfi
  simp only at himg hlen hrows
  subst himg
  have hmap1 : (List.range h).map (fun y => flipRow w (rows.getD y []))
      = rows.map List.reverse := by
    rw [← hlen, range_map_getD rows [] (flipRow w)]
    exact List.map_congr_left (fun r hr => flipRow_eq_reverse w r (hrows r hr))
  have hlen2 : (rows.map List.reverse).length = h := by simp [hlen]
  have hmap2 : (List.range h).map
      (fun y => flipRow w ((rows.map List.reverse).getD y []))
      = rows := by
    rw [← hlen2, range_map_getD (rows.map List.reverse) [] (flipRow w),
      List.map_map]
    have heach : ∀ r ∈ rows, (flipRow w ∘ List.reverse) r = r := by
      intro r hr
      have hrl : (r.reverse).length = w := by simp [hrows r hr]
      simp [Function.comp, flipRow_eq_reverse w r.reverse hrl]
    calc rows.map (flipRow w ∘ List.reverse)
        = rows.map id := List.map_congr_left heach
      _ = rows := List.map_id rows
  refine ⟨?_, ?_, ?_⟩
  · rw [flip_image_false_mk w h l t tr (some rows) sw sh]
    simp only [Option.getD_some]
    rw [hmap1,
      flip_image_false_mk w h (sw - (l + (w : Int))) t tr
        (some (rows.map List.reverse)) sw sh]
    simp only [Option.getD_some]
    rw [hmap2]
    congr 1
    omega
  · rw [flip_image_false_mk w h l t tr (some rows) sw sh]
    simp only [Option.getD_some]
    rw [hmap1]
  · rw [flip_image_false_mk w h l t tr (some rows) sw sh]

/-- Witness for `flip_horizontal_involution` on the 2×2 frame. -/
theorem flip_horizontal_involution_witness :
    flip_image (flip_image frame2x2 2 2 false) 2 2 false = frame2x2 ∧
    (flip_image frame2x2 2 2 false).img
      = some ([[1, 2], [3, 4]].map List.reverse) ∧
    (flip_image frame2x2 2 2 false).left
      = 2 - (frame2x2.left + (frame2x2.width : Int)) :=
  flip_horizontal_involution frame2x2 2 2 [[1, 2], [3, 4]] rfl
    (by decide) (by decide)

/-- Helper: the bottom-to-top column read of the 90° rotation is the
reverse of the top-to-bottom column. -/
theorem colUp_eq_reverse_map (rows : List (List Nat)) (x h : Nat) :
    colUp rows x h =
      ((List.range h).map (fun y => (rows.getD y []).getD x 0)).reverse := by
  induction h with
  | zero => rfl
  | succ n ih => rw [colUp, List.range_succ]; simp [ih]

/-- Helper: the right-to-left column sweep of the 270° rotation is a
`flatMap` over the reversed column range. -/
theorem colsDesc_eq_reverse_flatMap (rows : List (List Nat)) (h w : Nat) :
    colsDesc rows h w =
      ((List.range w).reverse).flatMap
        (fun x => (List.range h).map (fun y => (rows.getD y []).getD x 0)) := by
  induction w with
  | zero => rfl
  | succ n ih => rw [colsDesc, List.range_succ]; simp [ih]

/-- C7: the 90° rotation emits source columns left-to-right, each read
bottom-to-top, with `left = screenHeight - (top + height)` and
`top = old left`; the 270° rotation emits source columns
right-to-left, each read top-to-bottom, with
`top = screenWidth - (left + width)` and `left = old top`; both swap
width and height. -/
theorem rotate_traversal_and_offsets :
    ∀ (gfi : Gif_Image) (sw sh : Int),
      ((rotate_image gfi sw sh 1).data =
          (List.range gfi.width).flatMap (fun x =>
            ((List.range gfi.height).map
              (fun y => ((gfi.img.getD []).getD y []).getD x 0)).reverse) ∧
        (rotate_image gfi sw sh 1).left = sh - (gfi.top + (gfi.height : Int)) ∧
        (rotate_image gfi sw sh 1).top = gfi.left ∧
        (rotate_image gfi sw sh 1).width = gfi.height ∧
        (rotate_image gfi sw sh 1).height = gfi.width)
      ∧ ((rotate_image gfi sw sh 3).data =
          ((List.range gfi.width).reverse).flatMap (fun x =>
            (List.range gfi.height).map
              (fun y => ((gfi.img.getD []).getD y []).getD x 0)) ∧
        (rotate_image gfi sw sh 3).top = sw - (gfi.left + (gfi.width : Int)) ∧
        (rotate_image gfi sw sh 3).left = gfi.top ∧
        (rotate_image gfi sw sh 3).width = gfi.height ∧
        (rotate_image gfi sw sh 3).height = gfi.width) := by
  intro gfi sw sh
  constructor
  · refine ⟨?_, rfl, rfl, rfl, rfl⟩
    simp [rotate_image, colUp_eq_reverse_map]
  · refine ⟨?_, rfl, rfl, rfl, rfl⟩
    simp [rotate_image, colsDesc_eq_reverse_flatMap]

/-- C8: resizing the 100×100 single-frame stream to width 50 with
height unset (≤ 0) and `fit` off computes the factor pair (1/2, 1/2)
and leaves the frame 50×50 at offset (0,0). -/
theorem resize_stream_half_example :
    (resize_stream stream100 50 0 false (fun _ => 0)).map
      (fun r => (r.xfactor, r.yfactor,
        r.stream.images.map (fun g => (g.width, g.height, g.left, g.top)),
        r.stream.screen_width, r.stream.screen_height))
    = some (1/2, 1/2, [(50, 50, 0, 0)], 50, 50) := by
  have hscreen : Gif_CalculateScreenSize stream100 = stream100 := rfl
  have hfac : ((50 : Int) : ℚ) / ((100 : Int) : ℚ) = 1/2 := by norm_num
  have hxstep : ratTrunc (1024 * (1/2 : ℚ) + 1/2) = 512 := by
    rw [ratTrunc, if_neg (by norm_num)]
    norm_num
  have hnh : ratTrunc (((100 : Int) : ℚ) * (1/2 : ℚ) + 1/2) = 50 := by
    rw [ratTrunc, if_neg (by norm_num)]
    norm_num
  have hscale : (scale_image frame100 (1/2) (1/2) (fun _ => 0)).map
      (fun g => (g.width, g.height, g.left, g.top)) = some (50, 50, 0, 0) := by
    simp only [scale_image, hxstep]
    decide
  obtain ⟨im, him, hgeom⟩ : ∃ im,
      scale_image frame100 (1/2) (1/2) (fun _ => 0) = some im ∧
      (im.width, im.height, im.left, im.top) = (50, 50, 0, 0) := by
    cases hsc : scale_image frame100 (1/2) (1/2) (fun _ => 0) with
    | none => rw [hsc] at hscale; simp at hscale
    | some im =>
        rw [hsc] at hscale
        refine ⟨im, rfl, ?_⟩
        simpa using hscale
  have hsw : stream100.screen_width = 100 := rfl
  have hsh : stream100.screen_height = 100 := rfl
  have himages : stream100.images = [frame100] := rfl
  simp only [resize_stream, hscreen, hsw, hsh, himages]
  norm_num [ratTrunc]
  simp only [Prod.ext_iff] at hgeom
  simp only [one_div] at him
  simp [List.mapM.loop, him, hgeom.1, hgeom.2.1, hgeom.2.2.1, hgeom.2.2.2]

/-- Helper: rounding unscale is exact on multiples of the scale
factor. -/
theorem unscale_scale_mul (n : Int) : unscale (1024 * n) = n := by
  rw [unscale, unscaleNoRound, Int.fdiv_eq_ediv _ (by norm_num),
    show 1024 * n + 512 = 512 + n * 1024 from by ring,
    Int.add_mul_ediv_right 512 n (by norm_num)]
  norm_num

/-- Helper: the fixed-point step of factor 1.0 is 1024. -/
theorem ratTrunc_identity_step : ratTrunc (1024 * (1 : ℚ) + 1/2) = 1024 := by
  rw [ratTrunc, if_neg (by norm_num)]
  norm_num

/-- Helper: a one-row replication block is a single buffer write. -/
theorem writeBlock_one (buf : Int → Nat) (pos nw : Int) (v : Nat) :
    writeBlock buf pos nw v 1 = Function.update buf pos v := by
  simp [writeBlock]

/-- Helper: one column advance with `x_delta = y_delta = 1` writes the
current pixel at the current position and moves one cell right. -/
theorem writeCols_one (nw : Int) (v : Nat) (st : RowSt) :
    writeCols nw 1 v 1 st =
      { new_x := st.new_x + 1, sx := st.sx, pos := st.pos + 1,
        buf := Function.update st.buf st.pos v } := by
  simp [writeCols, writeBlock_one]

/-- Helper: invariant of the inner column loop at unit scale — after
`i` columns the loop has advanced `i` cells and copied the first `i`
bytes of the source line to positions `p0, p0+1, …`. -/
theorem rowFold_identity (l : Int) (w : Nat) (nw : Int) (line : List Nat)
    (p0 : Int) (buf0 : Int → Nat) :
    ∀ i : Nat, i ≤ w →
    (List.range i).foldl (rowStep 1024 (l + (w : Int)) nw w 1 line)
      { new_x := l, sx := 1024 * l, pos := p0, buf := buf0 } =
    { new_x := l + (i : Int), sx := 1024 * (l + (i : Int)),
      pos := p0 + (i : Int),
      buf := fun q => if p0 ≤ q ∧ q < p0 + (i : Int)
        then line.getD (q - p0).toNat 0 else buf0 q } := by
  intro i
  induction i with
  | zero =>
      intro _
      simp only [Nat.cast_zero, add_zero, List.range_zero, List.foldl_nil]
      congr 1
      funext q
      rw [if_neg (by omega)]
  | succ n ih =>
      intro hn
      rw [foldl_range_succ, ih (by omega)]
      have hsx : (if n = w - 1 then 1024 * (l + (w : Int))
          else 1024 * (l + (n : Int)) + 1024) = 1024 * (l + (n : Int)) + 1024 := by
        split_ifs with he
        · have : w = n + 1 := by omega
          subst this
          push_cast
          ring
        · rfl
      have hxd : unscale (1024 * (l + (n : Int)) + 1024 - 1024 * (l + (n : Int)))
          = 1 := by
        rw [show 1024 * (l + (n : Int)) + 1024 - 1024 * (l + (n : Int))
            = 1024 * 1 from by ring, unscale_scale_mul]
      simp only [rowStep, hsx, hxd]
      rw [show ((1 : Int).toNat) = 1 from rfl, writeCols_one]
      dsimp only
      simp only [RowSt.mk.injEq]
      refine ⟨by push_cast; ring, by push_cast; ring, by push_cast; ring, ?_⟩
      funext q
      simp only [Function.update_apply]
      push_cast
      split_ifs <;> first | rfl | (exfalso; omega) | (congr 1; omega)

/-- Helper: invariant of the outer row loop at unit scale — after `j`
source rows, `new_y` has advanced `j` destination rows, rows `0..j-1`
sit in the output buffer at their original positions, and every
position outside the first `j` output rows still holds the
initial contents of the allocation. -/
theorem colFold_identity (l t : Int) (w h : Nat) (rows : List (List Nat))
    (init : Int → Nat) :
    ∀ j : Nat, j ≤ h →
      (((List.range j).foldl
        (imageStep 1024 1024 l (l + (w : Int)) (t + (h : Int)) t (w : Int) l w h rows)
        { new_y := t, sy := 1024 * t, buf := init }).new_y = t + (j : Int) ∧
       ((List.range j).foldl
        (imageStep 1024 1024 l (l + (w : Int)) (t + (h : Int)) t (w : Int) l w h rows)
        { new_y := t, sy := 1024 * t, buf := init }).sy = 1024 * (t + (j : Int))) ∧
      (∀ r : Nat, r < j → ∀ c : Nat, c < w →
        ((List.range j).foldl
          (imageStep 1024 1024 l (l + (w : Int)) (t + (h : Int)) t (w : Int) l w h rows)
          { new_y := t, sy := 1024 * t, buf := init }).buf
            ((r : Int) * (w : Int) + (c : Int)) = (rows.getD r []).getD c 0) ∧
      (∀ q : Int, q < 0 ∨ (j : Int) * (w : Int) ≤ q →
        ((List.range j).foldl
          (imageStep 1024 1024 l (l + (w : Int)) (t + (h : Int)) t (w : Int) l w h rows)
          { new_y := t, sy := 1024 * t, buf := init }).buf q = init q) := by
  intro j
  induction j with
  | zero =>
      intro _
      refine ⟨⟨by simp, by simp⟩, ?_, ?_⟩
      · intro r hr
        exact absurd hr (Nat.not_lt_zero r)
      · intro q _
        rfl
  | succ n ih =>
      intro hn
      obtain ⟨⟨hy, hsy⟩, hcopy, hout⟩ := ih (by omega)
      rw [foldl_range_succ]
      have hstep : imageStep 1024 1024 l (l + (w : Int)) (t + (h : Int)) t
          (w : Int) l w h rows
          ((List.range n).foldl
            (imageStep 1024 1024 l (l + (w : Int)) (t + (h : Int)) t (w : Int) l w h rows)
            { new_y := t, sy := 1024 * t, buf := init }) n =
          { new_y := t + (n : Int) + 1, sy := 1024 * (t + (n : Int)) + 1024,
            buf := fun q =>
              if (n : Int) * (w : Int) ≤ q ∧ q < (n : Int) * (w : Int) + (w : Int)
              then (rows.getD n []).getD (q - (n : Int) * (w : Int)).toNat 0
              else ((List.range n).foldl
                (imageStep 1024 1024 l (l + (w : Int)) (t + (h : Int)) t (w : Int) l w h rows)
                { new_y := t, sy := 1024 * t, buf := init }).buf q } := by
        simp only [imageStep, hy, hsy]
        have h1 : (if n = h - 1 then 1024 * (t + (h : Int))
            else 1024 * (t + (n : Int)) + 1024) = 1024 * (t + (n : Int)) + 1024 := by
          split_ifs with he
          · have : h = n + 1 := by omega
            subst this
            push_cast
            ring
          · rfl
        rw [h1,
          if_neg (show ¬(1024 * (t + (n : Int)) + 1024
            < 1024 * (t + (n : Int) + 1)) by omega)]
        have h2 : unscale (1024 * (t + (n : Int)) + 1024
            - 1024 * (t + (n : Int))) = 1 := by
          rw [show 1024 * (t + (n : Int)) + 1024 - 1024 * (t + (n : Int))
              = 1024 * 1 from by ring, unscale_scale_mul]
        rw [h2, show ((1 : Int).toNat) = 1 from rfl,
          show (t + (n : Int) - t) * (w : Int) = (n : Int) * (w : Int) from by ring,
          rowFold_identity l w (w : Int) (rows.getD n []) ((n : Int) * (w : Int)) _
            w (le_refl w)]
      rw [hstep]
      refine ⟨⟨?_, ?_⟩, ?_, ?_⟩
      · dsimp only
        push_cast
        ring
      · dsimp only
        push_cast
        ring
      · intro r hr c hc
        dsimp only
        by_cases hr2 : r = n
        · subst hr2
          rw [if_pos (by constructor <;> omega)]
          congr 1
          omega
        · have hmul : r * w + w ≤ n * w := by
            have hmm := Nat.mul_le_mul_right w (show r + 1 ≤ n by omega)
            rwa [Nat.succ_mul] at hmm
          have hmulZ : (r : Int) * (w : Int) + (w : Int)
              ≤ (n : Int) * (w : Int) := by exact_mod_cast hmul
          rw [if_neg (by omega)]
          exact hcopy r (by omega) c hc
      · intro q hq
        dsimp only
        have hA : 0 ≤ (n : Int) * (w : Int) := by positivity
        have hq2 : q < 0 ∨ (n : Int) * (w : Int) + (w : Int) ≤ q := by
          rcases hq with hq | hq
          · exact Or.inl hq
          · right
            have : ((n : Int) + 1) * (w : Int) ≤ q := by
              push_cast at hq
              exact hq
            rw [add_one_mul] at this
            exact this
        rw [if_neg (by omega)]
        exact hout q (by omega)

/-- C5: scaling by factor 1.0 on both axes is the identity on any
raw-form frame (of positive extent within the representable range):
width, height, offsets, and every pixel are unchanged. -/
theorem scale_image_identity :
    ∀ (gfi : Gif_Image) (rows : List (List Nat)) (init : Int → Nat),
      gfi.img = some rows → rows.length = gfi.height →
      (∀ r ∈ rows, r.length = gfi.width) →
      0 < gfi.width → 0 < gfi.height →
      (gfi.width : Int) ≤ 2097151 → (gfi.height : Int) ≤ 2097151 →
      scale_image gfi 1 1 init = some gfi := by
  intro gfi rows init himg hlen hrows hw hh hwb hhb
  obtain ⟨w, h, l, t, tr, io⟩ := gfi
  simp only at himg hlen hrows hw hh hwb hhb
  subst himg
  have hng1 : ¬((w : Int) ≤ 0) := by omega
  have hng2 : ¬((h : Int) ≤ 0) := by omega
  have hguard : ¬((w : Int) > unscaleNoRound 2147483647 ∨
      (h : Int) > unscaleNoRound 2147483647) := by
    rw [show unscaleNoRound 2147483647 = 2097151 from by decide]
    omega
  obtain ⟨⟨hy, hsy⟩, hcopy, hout⟩ :=
    colFold_identity l t w h rows init h (le_refl h)
  simp only [scale_image, ratTrunc_identity_step, unscale_scale_mul,
    Option.getD_some, hng1, hng2, add_sub_cancel_left, hguard,
    Int.toNat_natCast, if_false, ite_false]
  simp only [Option.some.injEq, Gif_Image.mk.injEq]
  refine ⟨trivial, trivial, trivial, trivial, trivial, ?_⟩
  apply List.ext_getElem
  · simp [hlen]
  · intro r h1 h2
    simp only [List.getElem_map, List.getElem_range]
    have hr : r < h := by simpa using h1
    have hrlen : r < rows.length := by omega
    have hwlen : rows[r].length = w := hrows rows[r] (List.getElem_mem hrlen)
    apply List.ext_getElem
    · simp [hwlen]
    · intro c hc1 hc2
      simp only [List.getElem_map, List.getElem_range]
      have hcw : c < w := by simpa using hc1
      rw [hcopy r hr c hcw, List.getD_eq_getElem rows [] hrlen,
        List.getD_eq_getElem rows[r] 0 (by omega)]

/-- Witness for `scale_image_identity` on the concrete 2×2 frame. -/
theorem scale_image_identity_witness :
    scale_image frame2x2 1 1 (fun _ => 0) = some frame2x2 :=
  scale_image_identity frame2x2 [[1, 2], [3, 4]] (fun _ => 0) rfl
    (by decide) (by decide) (by decide) (by decide) (by decide) (by decide)

end Xform
